import Mathlib

/-!
Shallow embedding of the `local-ssl` reverse proxy for `*.localhost`
domains, for checking its natural-language specification.

Go strings are modelled as lists of characters (`Str`).  The byte-based
operations of Go's `strings` package coincide with the character-based
models below on valid UTF-8 input wherever a claim depends on them
(ASCII separators and suffixes such as `'/'`, `'.'`, `';'`,
`".localhost"`); Go's byte-based `len`, where it matters for route
ordering, is modelled by `utf8Len`.  Go's Unicode `ToLower`,
`TrimSpace` and `EqualFold` are modelled by their ASCII restrictions,
which agree with Go on the ASCII data the claims concern.
-/

namespace LocalSSL

/-- Go strings, modelled as lists of characters. -/
abbrev Str := List Char

deriving instance DecidableEq for Except

/-- Go `strings.HasPrefix s p` (is `p` a prefix of `s`). -/
def hasPrefix : Str → Str → Bool
  | _, [] => true
  | [], _ :: _ => false
  | c :: cs, p :: ps => c == p && hasPrefix cs ps

/-- Go `strings.HasSuffix s p` (is `p` a suffix of `s`). -/
def hasSuffix (s p : Str) : Bool :=
  hasPrefix s.reverse p.reverse

/-- Go `strings.TrimPrefix s p`: removes `p` from the front of `s` when
present, otherwise returns `s` unchanged. -/
def trimPrefixStr (s p : Str) : Str :=
  if hasPrefix s p then s.drop p.length else s

/-- Go `strings.TrimSpace` (ASCII whitespace model of Go's Unicode cut set). -/
def trimSpace (s : Str) : Str :=
  ((s.dropWhile Char.isWhitespace).reverse.dropWhile Char.isWhitespace).reverse

/-- Go `strings.ToLower` (ASCII model of Go's Unicode lowering). -/
def toLowerStr (s : Str) : Str :=
  s.map Char.toLower

/-- Splits `s` at the first occurrence of `sep`, returning the parts before
and after it, or `none` when `sep` does not occur.  Models Go's
`strings.Index` + slicing, and `strings.SplitN (s, sep, 2)`. -/
def splitFirst (sep : Char) : Str → Option (Str × Str)
  | [] => none
  | c :: cs =>
    if c == sep then some ([], cs)
    else (splitFirst sep cs).map (fun p => (c :: p.1, p.2))

/-- Go `strings.Split s sep` for a one-character separator. -/
def splitOnChar (sep : Char) : Str → List Str
  | [] => [[]]
  | c :: cs =>
    let r := splitOnChar sep cs
    if c == sep then [] :: r
    else
      match r with
      | [] => [[c]]
      | h :: t => (c :: h) :: t

/-- Go `strings.Join l sep`. -/
def joinStr (sep : Str) : List Str → Str
  | [] => []
  | h :: t => t.foldl (fun acc x => acc ++ sep ++ x) h

/-- Go `strings.Contains s sub`. -/
def containsStr (sub : Str) : Str → Bool
  | [] => hasPrefix [] sub
  | c :: cs => hasPrefix (c :: cs) sub || containsStr sub cs

/-- Go `strings.EqualFold` (ASCII model: case-insensitive equality). -/
def equalFold (a b : Str) : Bool :=
  toLowerStr a == toLowerStr b

/-- Go `len` on a string counts bytes; on the character list model this is
the sum of the UTF-8 sizes of the characters. -/
def utf8Len (s : Str) : Nat :=
  (s.map Char.utf8Size).sum

/-- Go's bytewise `<` on strings, which on valid UTF-8 equals
codepoint-lexicographic order. -/
def strLt : Str → Str → Bool
  | [], [] => false
  | [], _ :: _ => true
  | _ :: _, [] => false
  | a :: as, b :: bs => a < b || (a == b && strLt as bs)

/-- `hostOnly` from `server.go`: the part of `host:port` before the first
colon, or the whole string when there is no colon. -/
def hostOnly (hostport : Str) : Str :=
  match splitFirst ':' hostport with
  | some p => p.1
  | none => hostport

/-- `acceptsHTML` from `server.go`, on the value of the `Accept` header
(`[]` models an absent header, as Go's `Header.Get` returns `""`). -/
def acceptsHTML (accept : Str) : Bool :=
  containsStr "text/html".toList accept || accept == []

/-- `registrableLocalhost` from `server.go`. -/
def registrableLocalhost (host : Str) : Str :=
  let host := toLowerStr (hostOnly host)
  if !hasSuffix host ".localhost".toList then []
  else
    let labels := splitOnChar '.' host
    if labels.length < 2 then []
    else if labels.length == 2 then host
    else joinStr ['.'] (labels.drop (labels.length - 2))

/-- The attribute-locating loop of `rewriteCookieHeader`: the index of the
first `;`-segment whose trimmed text is a `name=value` pair with name
case-insensitively equal to `domain`, together with the trimmed value. -/
def findDomainAttr : Nat → List Str → Option (Nat × Str)
  | _, [] => none
  | i, seg :: rest =>
    let trimmed := trimSpace seg
    if trimmed == [] then findDomainAttr (i + 1) rest
    else
      match splitFirst '=' trimmed with
      | some (k, v) =>
        if equalFold k "domain".toList then some (i, trimSpace v)
        else findDomainAttr (i + 1) rest
      | none => findDomainAttr (i + 1) rest

/-- The `strings.Builder` loop of `rewriteCookieHeader`: re-emits the
trimmed segments joined by `"; "`, skipping empty segments, keeping
segment 0 as-is, and replacing the segment at `domainIdx` by `repl`. -/
def rebuildCookie (i domainIdx : Nat) (repl : Str) : List Str → Str
  | [] => []
  | seg :: rest =>
    let trimmed := trimSpace seg
    (if trimmed == [] then []
     else if i == 0 then trimmed
     else if i == domainIdx then "; ".toList ++ repl
     else "; ".toList ++ trimmed) ++ rebuildCookie (i + 1) domainIdx repl rest

/-- `rewriteCookieHeader` from `server.go`. -/
def rewriteCookieHeader (raw registrable : Str) : Str :=
  if registrable == [] then raw
  else
    let segments := splitOnChar ';' raw
    match findDomainAttr 0 segments with
    | none => raw
    | some (domainIdx, domainValue) =>
      let normalized := trimPrefixStr (toLowerStr domainValue) ['.']
      if normalized != "localhost".toList then raw
      else rebuildCookie 0 domainIdx ("Domain=".toList ++ registrable) segments

/-- A `runtimeRoute` from `server.go`, without the opaque reverse-proxy
handle: its routing-relevant fields. -/
structure RuntimeRoute where
  path : Str
  stripPfx : Bool
  spaFallback : Bool
  upstreamScheme : Str
  upstream : Str
deriving DecidableEq, Repr

/-- `runtimeRoute.matches` from `server.go`.  Go's byte indexing
`path[len(rt.path)]` and byte-length comparison are reached only under the
`HasPrefix` guard, where they coincide with the character-based model. -/
def matchesRoute (rtPath path : Str) : Bool :=
  if rtPath == "/".toList then true
  else if !hasPrefix path rtPath then false
  else if path.length == rtPath.length then true
  else if hasSuffix rtPath "/".toList then true
  else hasPrefix (path.drop rtPath.length) "/".toList

/-- A `domainRouter` from `server.go`. -/
structure DomainRouter where
  routes : List RuntimeRoute
  fallback : Option RuntimeRoute
deriving DecidableEq, Repr

/-- `domainRouter.match` from `server.go`: the first route in order whose
`matches` accepts the path. -/
def domainMatch (dr : DomainRouter) (path : Str) : Option RuntimeRoute :=
  dr.routes.find? (fun rt => matchesRoute rt.path path)

/-- `rewritePath` from `server.go`, as a function on the request path. -/
def rewritePath (path pre : Str) (strip : Bool) : Str :=
  if strip then
    if pre == "/".toList then path
    else if hasPrefix path pre then
      let newPath := trimPrefixStr path pre
      let newPath := if !hasPrefix newPath "/".toList then '/' :: newPath else newPath
      let newPath := if newPath == [] then "/".toList else newPath
      newPath
    else path
  else path

/-- The request data `domainRouter.ServeHTTP` consults and mutates: the URL
path, the `Accept` header value (`[]` when absent), and the
`X-Devlink-Original-Path` request header. -/
structure Request where
  path : Str
  accept : Str
  originalPathHeader : Option Str
deriving DecidableEq, Repr

/-- The outcome of `domainRouter.ServeHTTP`: dispatch to a route with the
(possibly mutated) request, or an HTTP 502 with the given body. -/
inductive ServeOutcome where
  | proxied (route : RuntimeRoute) (req : Request)
  | badGateway (msg : Str)
deriving DecidableEq, Repr

/-- `domainRouter.ServeHTTP` from `server.go`, up to the dispatch to the
selected route's proxy. -/
def serveHTTP (dr : DomainRouter) (req : Request) : ServeOutcome :=
  let originalPath := req.path
  match domainMatch dr originalPath with
  | some route => .proxied route req
  | none =>
    match dr.fallback with
    | some fb =>
      if acceptsHTML req.accept then
        .proxied fb { req with originalPathHeader := some originalPath, path := "/".toList }
      else .badGateway "no matching route".toList
    | none => .badGateway "no matching route".toList

/-- A `config.Route` from `config.go`. -/
structure Route where
  path : Str
  upstream : Str
  stripPathPfx : Option Bool
  websocket : Bool
  spaFallback : Bool
deriving DecidableEq, Repr

/-- A `config.Project` from `config.go`. -/
structure Project where
  domains : List Str
  routes : List Route
deriving DecidableEq, Repr

/-- A `config.Config` from `config.go`.  Go's `map[string]*Project` is
modelled as an association list; Go map iteration order is unspecified, and
no claim below depends on the order. -/
structure Config where
  projects : List (Str × Project)
deriving DecidableEq, Repr

/-- The scheme component of `url.Parse` applied to an upstream URL,
lower-cased as `url.Parse` does: the text before the first `:`.  Go
additionally validates the scheme's character shape and errors on a
leading `:`; every upstream this model and Go disagree on is rejected
identically by the scheme whitelist in `buildRuntimeRoute`. -/
def upstreamScheme (u : Str) : Str :=
  match splitFirst ':' u with
  | some p => toLowerStr p.1
  | none => []

/-- The Go comparator passed to `sort.Slice` in `newDomainRouter`:
`less i j` iff route `i` sorts before route `j` (longer path first, ties
by bytewise-ascending path). -/
def routeLess (a b : RuntimeRoute) : Bool :=
  if utf8Len a.path == utf8Len b.path then strLt a.path b.path
  else utf8Len b.path < utf8Len a.path

/-- The nonstrict order realised by sorting with `routeLess`:
`routeOrder a b` iff `a` need not come after `b`. -/
def routeOrder (a b : RuntimeRoute) : Prop :=
  routeLess b a = false

instance : DecidableRel routeOrder :=
  fun a b => inferInstanceAs (Decidable (routeLess b a = false))

/-- `buildRuntimeRoute` from `server.go`, without the reverse-proxy
construction (its director/cookie transforms are modelled separately by
`rewritePath` and `rewriteCookieHeader`). -/
def buildRuntimeRoute (r : Route) : Except Str RuntimeRoute :=
  if r.path == [] || !hasPrefix r.path "/".toList then
    .error "invalid path".toList
  else
    let scheme := upstreamScheme r.upstream
    let normScheme :=
      if scheme == "http".toList || scheme == "https".toList then some scheme
      else if scheme == "ws".toList then some "http".toList
      else if scheme == "wss".toList then some "https".toList
      else none
    match normScheme with
    | none => .error "unsupported scheme".toList
    | some sch =>
      .ok { path := r.path
            stripPfx := r.stripPathPfx.getD true
            spaFallback := r.spaFallback
            upstreamScheme := sch
            upstream := r.upstream }

/-- The route-building loop of `newDomainRouter`: builds each runtime route
in order, recording as fallback the last route with path `/` and
`spaFallback` set. -/
def buildRoutesAux (rs : List Route) :
    Except Str (List RuntimeRoute × Option RuntimeRoute) :=
  rs.foldlM
    (fun acc r => do
      let rt ← buildRuntimeRoute r
      pure (acc.1 ++ [rt],
        if r.path == "/".toList && r.spaFallback then some rt else acc.2))
    ([], none)

/-- `newDomainRouter` from `server.go`.  Go sorts with `sort.Slice`
(an unspecified-order sort satisfying the comparator contract); the model
uses insertion sort with the same comparator. -/
def newDomainRouter (project : Project) : Except Str DomainRouter :=
  if project.routes == [] then .error "project has no routes".toList
  else do
    let (rts, fb) ← buildRoutesAux project.routes
    pure { routes := rts.insertionSort routeOrder, fallback := fb }

/-- Assignment `routers[k] = v` on the association-list model of the Go
map: replaces the binding for `k` when present, otherwise appends it. -/
def insertAssoc (l : List (Str × DomainRouter)) (k : Str) (v : DomainRouter) :
    List (Str × DomainRouter) :=
  match l with
  | [] => [(k, v)]
  | (k', v') :: rest =>
    if k' == k then (k, v) :: rest else (k', v') :: insertAssoc rest k v

/-- Map lookup on the association-list model, as in `Server.lookupRouter`. -/
def lookupRouter (routers : List (Str × DomainRouter)) (host : Str) :
    Option DomainRouter :=
  (routers.find? (fun p => p.1 == host)).map (·.2)

/-- `buildRouters` from `server.go`. -/
def buildRouters (cfg : Config) : Except Str (List (Str × DomainRouter)) :=
  cfg.projects.foldlM
    (fun routers np =>
      if np.2.domains == [] then .error "project has no domains".toList
      else do
        let dr ← newDomainRouter np.2
        np.2.domains.foldlM
          (fun rs domain =>
            let normalized := toLowerStr (hostOnly domain)
            if !hasSuffix normalized ".localhost".toList then
              .error "domain is not a .localhost domain".toList
            else .ok (insertAssoc rs normalized dr))
          routers)
    []

/-- The routing-relevant state of `Server`: the installed routing table. -/
structure ServerState where
  routers : List (Str × DomainRouter)
deriving DecidableEq, Repr

/-- True exactly on `Except.error`. -/
def isErr {ε α : Type} : Except ε α → Bool
  | .error _ => true
  | .ok _ => false

/-- `Server.reload` from `server.go`.  The result of `config.Load` is an
input (file I/O is external): the new state and the returned error. -/
def reload (st : ServerState) (loadResult : Except Str Config) :
    ServerState × Except Str Unit :=
  match loadResult with
  | .error e => (st, .error e)
  | .ok cfg =>
    match buildRouters cfg with
    | .error e => (st, .error e)
    | .ok routers => ({ routers := routers }, .ok ())

/-- The two CA files of `certs.Manager`, by content; `none` models a file
that does not exist (the code checks existence with `os.Stat`). -/
structure CAFiles where
  caCert : Option Str
  caKey : Option Str
deriving DecidableEq, Repr

/-- The outcomes of the effectful steps inside `Manager.ensureCA`, supplied
as inputs: whether key/serial/certificate generation succeeds, whether each
`writePEM` succeeds, and the generated PEM contents.  A failed write is
modelled as leaving the file unchanged. -/
structure CAGen where
  genOk : Bool
  certWriteOk : Bool
  keyWriteOk : Bool
  certPem : Str
  keyPem : Str
deriving DecidableEq, Repr

/-- `Manager.ensureCA` from `manager.go`: final file state and returned
error. -/
def ensureCA (fs : CAFiles) (g : CAGen) : CAFiles × Except Str Unit :=
  if fs.caCert.isSome && fs.caKey.isSome then (fs, .ok ())
  else if !g.genOk then (fs, .error "generate CA".toList)
  else if !g.certWriteOk then (fs, .error "write CA cert".toList)
  else
    let fs1 := { fs with caCert := some g.certPem }
    if !g.keyWriteOk then (fs1, .error "write CA key".toList)
    else ({ fs1 with caKey := some g.keyPem }, .ok ())

/-- The both-or-neither persistence property claimed for the CA files. -/
def bothOrNeither (fs : CAFiles) : Bool :=
  fs.caCert.isSome == fs.caKey.isSome

/-- One day, in the seconds-based model of Go's `time` values. -/
def oneDay : Int := 24 * 60 * 60

/-- Thirty days, the renewal window of `ensureServerCert`. -/
def thirtyDays : Int := 30 * oneDay

/-- `Manager.ensureServerCert` from `manager.go`, up to the renewal
decision.  `caLoadOk` models whether `loadCA` succeeds; `loaded` is
`some notAfter` when `tls.LoadX509KeyPair` succeeds with a nonempty chain
whose leaf parses, and `none` otherwise; times are integers (Go compares
`time.Time` values with `Before`, i.e. `<`).  The result is whether a new
leaf certificate is issued; the renewal path's own crypto/I/O failures
return an error before persisting and do not alter the decision. -/
def ensureServerCert (caLoadOk : Bool) (loaded : Option Int) (now : Int) :
    Except Str Bool :=
  if !caLoadOk then .error "load CA".toList
  else
    match loaded with
    | some notAfter => if now < notAfter - thirtyDays then .ok false else .ok true
    | none => .ok true

/-- The matching condition as the specification words it: the path equals
the route path, or starts with it followed immediately by `/`, or the route
path ends in `/` and the path is nested under it, or the route path is
`/`. -/
def claimMatches (rtPath path : Str) : Bool :=
  path == rtPath
  || hasPrefix path (rtPath ++ "/".toList)
  || (hasSuffix rtPath "/".toList && hasPrefix path rtPath)
  || rtPath == "/".toList

/-- Concatenation of segments, each preceded by the canonical `"; "`
cookie-attribute separator; the tail shape of a rebuilt cookie header. -/
def tailCat : List Str → Str
  | [] => []
  | x :: xs => "; ".toList ++ x ++ tailCat xs

/-- The route order as the specification words it: descending path length
(bytes), ties broken by ascending (bytewise) lexicographic path. -/
def routeSpecLE (a b : RuntimeRoute) : Prop :=
  utf8Len b.path < utf8Len a.path
  ∨ (utf8Len a.path = utf8Len b.path ∧ strLt b.path a.path = false)

instance : DecidableRel routeSpecLE := fun a b => by
  unfold routeSpecLE; infer_instance

/-- A concrete router for exercising the reload claim. -/
def c2Router : DomainRouter :=
  ⟨[⟨"/".toList, true, false, "http".toList, "http://a".toList⟩], none⟩

/-- A server state with one routable domain, for the reload claim. -/
def c2InitialState : ServerState :=
  ⟨[("first.localhost".toList, c2Router)]⟩

/-- A loaded configuration whose single project has no routes, so that
rebuilding the routing table fails. -/
def c2BadLoad : Except Str Config :=
  .ok ⟨[("broken".toList, ⟨["app.localhost".toList], []⟩)]⟩

/-- The `/api` route of the fallback-policy example. -/
def c4ApiRoute : RuntimeRoute :=
  ⟨"/api".toList, true, false, "http".toList, "http://b".toList⟩

/-- The fallback-eligible `/` route of the fallback-policy example. -/
def c4FallbackRoute : RuntimeRoute :=
  ⟨"/".toList, true, true, "http".toList, "http://a".toList⟩

/-- A router with routes `/api` and a `/` fallback, for the fallback-policy
example. -/
def c4Router : DomainRouter :=
  ⟨[c4ApiRoute], some c4FallbackRoute⟩

/-- The project of the route-ordering example: paths `/`, `/api`,
`/api/v2`. -/
def c8Project : Project :=
  ⟨["first.localhost".toList],
   [⟨"/".toList, "http://a".toList, none, false, true⟩,
    ⟨"/api".toList, "http://b".toList, none, false, false⟩,
    ⟨"/api/v2".toList, "http://c".toList, none, false, false⟩]⟩

theorem hasPrefix_iff (s p : Str) : hasPrefix s p = true ↔ ∃ t, s = p ++ t := by
  induction p generalizing s with
  | nil => simp [hasPrefix]
  | cons x xs ih =>
    cases s with
    | nil => simp [hasPrefix]
    | cons c cs =>
      simp only [hasPrefix, Bool.and_eq_true, beq_iff_eq, ih, List.cons_append,
        List.cons.injEq]
      constructor
      · rintro ⟨rfl, t, rfl⟩; exact ⟨t, rfl, rfl⟩
      · rintro ⟨t, rfl, rfl⟩; exact ⟨rfl, t, rfl⟩

theorem hasSuffix_iff (s p : Str) : hasSuffix s p = true ↔ ∃ t, s = t ++ p := by
  unfold hasSuffix
  rw [hasPrefix_iff]
  constructor
  · rintro ⟨t, ht⟩
    refine ⟨t.reverse, ?_⟩
    have := congrArg List.reverse ht
    simpa using this
  · rintro ⟨t, rfl⟩
    exact ⟨t.reverse, by simp⟩

theorem hasPrefix_append_cancel (a b c : Str) :
    hasPrefix (a ++ b) (a ++ c) = hasPrefix b c := by
  induction a with
  | nil => rfl
  | cons x xs ih => simp [hasPrefix, ih]

theorem hasPrefix_append_self (p t : Str) : hasPrefix (p ++ t) p = true := by
  rw [hasPrefix_iff]; exact ⟨t, rfl⟩

theorem strLt_irrefl (a : Str) : strLt a a = false := by
  induction a with
  | nil => rfl
  | cons x xs ih => simp [strLt, ih]

theorem strLt_asymm (a b : Str) (h : strLt a b = true) : strLt b a = false := by
  induction a generalizing b with
  | nil => cases b with
    | nil => simp [strLt] at h
    | cons y ys => simp [strLt]
  | cons x xs ih =>
    cases b with
    | nil => simp [strLt] at h
    | cons y ys =>
      simp only [strLt, Bool.or_eq_true, Bool.and_eq_true, beq_iff_eq,
        decide_eq_true_eq, Bool.or_eq_false_iff, Bool.and_eq_false_iff] at h ⊢
      rcases h with h | ⟨rfl, h⟩
      · constructor
        · simpa using not_lt_of_lt h
        · left; simpa using ne_of_gt h
      · exact ⟨by simp, Or.inr (ih _ h)⟩

theorem strLt_trans (a b c : Str) (h1 : strLt a b = true) (h2 : strLt b c = true) :
    strLt a c = true := by
  induction a generalizing b c with
  | nil =>
    cases b with
    | nil => simp [strLt] at h1
    | cons y ys =>
      cases c with
      | nil => simp [strLt] at h2
      | cons z zs => simp [strLt]
  | cons x xs ih =>
    cases b with
    | nil => simp [strLt] at h1
    | cons y ys =>
      cases c with
      | nil => simp [strLt] at h2
      | cons z zs =>
        simp only [strLt, Bool.or_eq_true, Bool.and_eq_true, beq_iff_eq,
          decide_eq_true_eq] at h1 h2 ⊢
        rcases h1 with h1 | ⟨rfl, h1⟩
        · rcases h2 with h2 | ⟨rfl, h2⟩
          · exact Or.inl (lt_trans h1 h2)
          · exact Or.inl h1
        · rcases h2 with h2 | ⟨rfl, h2⟩
          · exact Or.inl h2
          · exact Or.inr ⟨rfl, ih _ _ h1 h2⟩

theorem strLt_conn (a b : Str) (h1 : strLt a b = false) (h2 : strLt b a = false) :
    a = b := by
  induction a generalizing b with
  | nil => cases b with
    | nil => rfl
    | cons y ys => simp [strLt] at h1
  | cons x xs ih =>
    cases b with
    | nil => simp [strLt] at h2
    | cons y ys =>
      simp only [strLt, Bool.or_eq_false_iff, Bool.and_eq_false_iff, beq_iff_eq,
        decide_eq_false_iff_not] at h1 h2
      obtain ⟨hxy, h1'⟩ := h1
      obtain ⟨hyx, h2'⟩ := h2
      have hxy' : x = y := le_antisymm (not_lt.mp hyx) (not_lt.mp hxy)
      subst hxy'
      rcases h1' with h | h1'
      · simp at h
      rcases h2' with h | h2'
      · simp at h
      exact congrArg _ (ih _ h1' h2')

theorem hasPrefix_refl (s : Str) : hasPrefix s s = true := by
  have := hasPrefix_append_self s []
  simpa using this

theorem matchesRoute_eq_claimMatches (rtPath path : Str) :
    matchesRoute rtPath path = claimMatches rtPath path := by
  have hs : "/".toList = ['/'] := rfl
  unfold matchesRoute claimMatches
  rw [hs]
  by_cases hroot : rtPath = ['/']
  · subst hroot; simp
  · have hroot' : (rtPath == ['/']) = false := beq_eq_false_iff_ne.mpr hroot
    rw [hroot']
    by_cases hpre : hasPrefix path rtPath = true
    · obtain ⟨rest, rfl⟩ := (hasPrefix_iff _ _).mp hpre
      cases rest with
      | nil =>
        have h1 : hasPrefix (rtPath ++ []) rtPath = true := hasPrefix_append_self _ _
        simp [h1, hasPrefix_refl]
      | cons c t =>
        have h1 : hasPrefix (rtPath ++ c :: t) rtPath = true := hasPrefix_append_self _ _
        have h2 : ((rtPath ++ c :: t).length == rtPath.length) = false := by simp
        have h3 : ((rtPath ++ c :: t) == rtPath) = false := by
          rw [beq_eq_false_iff_ne]
          intro h
          have := congrArg List.length h
          simp at this
        have h4 : hasPrefix (rtPath ++ c :: t) (rtPath ++ ['/']) = hasPrefix (c :: t) ['/'] :=
          hasPrefix_append_cancel _ _ _
        have h5 : (rtPath ++ c :: t).drop rtPath.length = c :: t := List.drop_left _ _
        rw [h1, h3, h4, h5, h2]
        cases hsuf : hasSuffix rtPath ['/'] <;> simp [hasPrefix]
    · have hpre' : hasPrefix path rtPath = false := by simpa using hpre
      rw [hpre']
      have h1 : (path == rtPath) = false := by
        rw [beq_eq_false_iff_ne]
        rintro rfl
        rw [hasPrefix_refl] at hpre'
        simp at hpre'
      have h2 : hasPrefix path (rtPath ++ ['/']) = false := by
        by_contra hne
        have h2t : hasPrefix path (rtPath ++ ['/']) = true := by
          simpa using hne
        obtain ⟨t, rfl⟩ := (hasPrefix_iff _ _).mp h2t
        rw [List.append_assoc, hasPrefix_append_self] at hpre'
        simp at hpre'
      rw [h1, h2]
      simp

theorem splitOnChar_ne_nil (c : Char) (s : Str) : splitOnChar c s ≠ [] := by
  induction s with
  | nil => simp [splitOnChar]
  | cons x xs ih =>
    unfold splitOnChar
    cases hx : x == c with
    | true => simp
    | false =>
      cases hr : splitOnChar c xs with
      | nil => simp
      | cons a l => simp

theorem length_splitOnChar_pos (c : Char) (s : Str) : 1 ≤ (splitOnChar c s).length := by
  cases h : splitOnChar c s with
  | nil => exact absurd h (splitOnChar_ne_nil c s)
  | cons a l => simp

theorem two_le_length_splitOnChar (c : Char) (s : Str) (h : c ∈ s) :
    2 ≤ (splitOnChar c s).length := by
  induction s with
  | nil => simp at h
  | cons x xs ih =>
    unfold splitOnChar
    cases hx : x == c with
    | true =>
      have := length_splitOnChar_pos c xs
      simp only [if_true]
      simp only [List.length_cons]
      omega
    | false =>
      have hx' : x ≠ c := by simpa using hx
      have hmem : c ∈ xs := by
        rcases List.mem_cons.mp h with h1 | h1
        · exact absurd h1.symm hx'
        · exact h1
      have h2 := ih hmem
      cases hr : splitOnChar c xs with
      | nil => exact absurd hr (splitOnChar_ne_nil c xs)
      | cons a l =>
        rw [hr] at h2
        simp only [List.length_cons] at h2 ⊢
        simp only [Bool.false_eq_true, if_false]
        simp only [List.length_cons]
        omega

theorem foldl_append_tailCat (l : List Str) (a : Str) :
    l.foldl (fun acc x => acc ++ "; ".toList ++ x) a = a ++ tailCat l := by
  induction l generalizing a with
  | nil => simp [tailCat]
  | cons y ys ih =>
    simp only [List.foldl_cons, tailCat, ih]
    simp [List.append_assoc]

theorem joinStr_sep_cons (x : Str) (l : List Str) :
    joinStr "; ".toList (x :: l) = x ++ tailCat l := by
  unfold joinStr
  exact foldl_append_tailCat l x

theorem rebuildCookie_tail (segs : List Str) (i k : Nat) (repl : Str)
    (hi : 1 ≤ i) (hall : ∀ s ∈ segs, trimSpace s ≠ []) :
    rebuildCookie i k repl segs =
      tailCat (if i ≤ k then (segs.map trimSpace).set (k - i) repl
               else segs.map trimSpace) := by
  induction segs generalizing i with
  | nil =>
    simp only [rebuildCookie, List.map_nil, List.set_nil]
    split <;> rfl
  | cons s rest ih =>
    have hsb : (trimSpace s == []) = false :=
      beq_eq_false_iff_ne.mpr (hall s (by simp))
    have hi0 : (i == 0) = false := by
      rw [beq_eq_false_iff_ne]; omega
    have hrest : ∀ s ∈ rest, trimSpace s ≠ [] := fun s hs => hall s (by simp [hs])
    unfold rebuildCookie
    simp only [hsb, hi0, Bool.false_eq_true, if_false]
    by_cases hik : i = k
    · subst hik
      have hbeq : (i == i) = true := by simp
      rw [hbeq]
      simp only [if_true]
      rw [ih (i + 1) (by omega) hrest, if_neg (by omega), if_pos (le_refl i)]
      simp only [Nat.sub_self, List.map_cons, List.set_cons_zero, tailCat]
    · have hbeq : (i == k) = false := beq_eq_false_iff_ne.mpr hik
      rw [hbeq]
      simp only [Bool.false_eq_true, if_false]
      rw [ih (i + 1) (by omega) hrest]
      by_cases hle : i ≤ k
      · have hlt : i + 1 ≤ k := by omega
        rw [if_pos hle, if_pos hlt]
        have hsub : k - i = (k - (i + 1)) + 1 := by omega
        rw [hsub]
        simp only [List.map_cons, List.set_cons_succ, tailCat]
      · have hgt : ¬ i + 1 ≤ k := by omega
        rw [if_neg hle, if_neg hgt]
        simp only [List.map_cons, tailCat]

theorem rebuildCookie_canonical (segs : List Str) (k : Nat) (repl : Str)
    (hall : ∀ s ∈ segs, trimSpace s ≠ []) (hk : 1 ≤ k) :
    rebuildCookie 0 k repl segs =
      joinStr "; ".toList ((segs.map trimSpace).set k repl) := by
  cases segs with
  | nil => simp [rebuildCookie, joinStr]
  | cons s rest =>
    have hsb : (trimSpace s == []) = false :=
      beq_eq_false_iff_ne.mpr (hall s (by simp))
    have hrest : ∀ s ∈ rest, trimSpace s ≠ [] := fun s hs => hall s (by simp [hs])
    unfold rebuildCookie
    simp only [hsb, Bool.false_eq_true, if_false, beq_self_eq_true, if_true]
    have hset : (trimSpace s :: rest.map trimSpace).set k repl
        = trimSpace s :: (rest.map trimSpace).set (k - 1) repl := by
      cases k with
      | zero => omega
      | succ n => simp [List.set_cons_succ]
    rw [List.map_cons, hset, joinStr_sep_cons]
    rw [rebuildCookie_tail rest 1 k repl (le_refl 1) hrest, if_pos hk]

/-- C1: for every router and every request path, `match` returns the first
route `r` in the route list such that the path equals `r.path`, or starts
with `r.path` followed immediately by `/`, or `r.path` ends in `/` and the
path is nested under it, or `r.path` is `/`; and `none` when no route
satisfies any of these. -/
theorem match_returns_first_claim_match (dr : DomainRouter) (path : Str) :
    domainMatch dr path = dr.routes.find? (fun rt => claimMatches rt.path path) := by
  unfold domainMatch
  have h : (fun rt : RuntimeRoute => matchesRoute rt.path path)
      = (fun rt : RuntimeRoute => claimMatches rt.path path) :=
    funext fun rt => matchesRoute_eq_claimMatches rt.path path
  rw [h]

/-- C7: with stripping on, a route path other than `/`, and the request
path starting with it, the rewritten path is the remainder after removing
the prefix, with `/` prepended when the remainder does not start with `/`
and `/` when the remainder is empty; with stripping off, or route path
`/`, the path passes through unchanged. -/
theorem rewritePath_strip_claim (path p : Str) :
    (p ≠ "/".toList → hasPrefix path p = true →
      rewritePath path p true =
        (if path.drop p.length = [] then "/".toList
         else if hasPrefix (path.drop p.length) "/".toList then path.drop p.length
         else '/' :: path.drop p.length))
    ∧ (∀ strip, rewritePath path "/".toList strip = path)
    ∧ rewritePath path p false = path := by
  have hsl : "/".toList = ['/'] := rfl
  refine ⟨?_, ?_, rfl⟩
  · intro hp hpre
    have hp' : (p == "/".toList) = false := beq_eq_false_iff_ne.mpr hp
    unfold rewritePath trimPrefixStr
    simp only [hp', Bool.false_eq_true, if_false, hpre, if_true]
    cases hrem : path.drop p.length with
    | nil => simp [hasPrefix, hrem, hsl]
    | cons c t =>
      by_cases hc : c = '/'
      · subst hc
        simp [hasPrefix, hrem, hsl]
      · have hc' : (c == '/') = false := beq_eq_false_iff_ne.mpr hc
        simp [hasPrefix, hrem, hsl, hc']
  · intro strip
    unfold rewritePath
    cases strip <;> simp

/-- C7 witness: `/api/health` under route `/api` with stripping rewrites to
`/health`. -/
theorem rewritePath_strip_claim_witness :
    "/api".toList ≠ "/".toList ∧
    hasPrefix "/api/health".toList "/api".toList = true ∧
    rewritePath "/api/health".toList "/api".toList true = "/health".toList := by
  refine ⟨by decide, by decide, ?_⟩
  exact ((rewritePath_strip_claim "/api/health".toList "/api".toList).1
    (by decide) (by decide)).trans (by decide)

/-- C10: when the request path does not start with the route's prefix, the
path-rewrite step leaves the path completely unchanged even with stripping
on. -/
theorem rewritePath_frame_no_prefix (path p : Str)
    (h : hasPrefix path p = false) : rewritePath path p true = path := by
  unfold rewritePath
  by_cases hp : (p == "/".toList) = true
  · rw [if_pos hp]
    simp
  · have hp' : (p == "/".toList) = false := by simpa using hp
    simp only [hp', h, Bool.false_eq_true, if_false]
    simp

/-- C10 witness: path `/` (as left by SPA fallback) under route prefix
`/api` passes through unchanged. -/
theorem rewritePath_frame_no_prefix_witness :
    hasPrefix "/".toList "/api".toList = false ∧
    rewritePath "/".toList "/api".toList true = "/".toList :=
  ⟨by decide, rewritePath_frame_no_prefix _ _ (by decide)⟩

/-- C4: when no route matches the request path, a fallback route is used
exactly when one exists and the `Accept` header contains `text/html` or is
absent/empty, recording the original path in `X-Devlink-Original-Path` and
rewriting the path to `/`; otherwise the response is 502 with body
`no matching route`. -/
theorem serve_fallback_policy (dr : DomainRouter) (req : Request)
    (hnone : domainMatch dr req.path = none) :
    (∀ fb, dr.fallback = some fb → acceptsHTML req.accept = true →
      serveHTTP dr req =
        .proxied fb { req with originalPathHeader := some req.path, path := "/".toList })
    ∧ (acceptsHTML req.accept = false →
        serveHTTP dr req = .badGateway "no matching route".toList)
    ∧ (dr.fallback = none →
        serveHTTP dr req = .badGateway "no matching route".toList) := by
  unfold serveHTTP
  simp only [hnone]
  refine ⟨?_, ?_, ?_⟩
  · intro fb hfb hacc
    rw [hfb]
    simp [hacc]
  · intro hacc
    cases hfb : dr.fallback with
    | none => rfl
    | some fb => simp [hacc]
  · intro hfb
    rw [hfb]

/-- C4 witness: on the router with routes `/api` and fallback `/`, a
request for `/about` with `Accept: text/html` is served by the fallback
with the original path recorded and the path rewritten to `/`; with
`Accept: application/json` it gets 502 `no matching route`. -/
theorem serve_fallback_policy_witness :
    domainMatch c4Router "/about".toList = none ∧
    serveHTTP c4Router ⟨"/about".toList, "text/html".toList, none⟩ =
      .proxied c4FallbackRoute ⟨"/".toList, "text/html".toList, some "/about".toList⟩ ∧
    serveHTTP c4Router ⟨"/about".toList, "application/json".toList, none⟩ =
      .badGateway "no matching route".toList := by
  refine ⟨by decide, ?_, ?_⟩
  · exact (serve_fallback_policy c4Router ⟨"/about".toList, "text/html".toList, none⟩
      (by decide)).1 c4FallbackRoute rfl (by decide)
  · exact (serve_fallback_policy c4Router ⟨"/about".toList, "application/json".toList, none⟩
      (by decide)).2.1 (by decide)

/-- C2: a reload whose configuration load or table rebuild fails leaves the
previously installed routing table exactly as it was: the state is
unchanged and every previously routable domain is still routed by the same
router. -/
theorem reload_all_or_nothing (st : ServerState) (res : Except Str Config)
    (h : isErr (reload st res).2 = true) :
    (reload st res).1 = st ∧
    ∀ host, lookupRouter (reload st res).1.routers host = lookupRouter st.routers host := by
  unfold reload at h ⊢
  cases res with
  | error e => exact ⟨rfl, fun _ => rfl⟩
  | ok cfg =>
    dsimp only at h ⊢
    cases hb : buildRouters cfg with
    | error e => exact ⟨rfl, fun _ => rfl⟩
    | ok r =>
      rw [hb] at h
      simp [isErr] at h

/-- C2 witness: reloading a configuration whose project has no routes fails
and leaves `first.localhost` routed by the same router as before. -/
theorem reload_all_or_nothing_witness :
    isErr (reload c2InitialState c2BadLoad).2 = true ∧
    (reload c2InitialState c2BadLoad).1 = c2InitialState ∧
    lookupRouter (reload c2InitialState c2BadLoad).1.routers "first.localhost".toList
      = some c2Router := by
  refine ⟨by decide, (reload_all_or_nothing c2InitialState c2BadLoad (by decide)).1, ?_⟩
  rw [(reload_all_or_nothing c2InitialState c2BadLoad (by decide)).2 "first.localhost".toList]
  decide

/-- C5 counterexample: a two-label `.localhost` host containing an
upper-case letter is lower-cased by `registrableLocalhost`, not returned
unchanged as the claim states. -/
theorem registrable_two_label_counterexample :
    registrableLocalhost "First.localhost".toList = "first.localhost".toList ∧
    "first.localhost".toList ≠ "First.localhost".toList := by
  refine ⟨by decide, by decide⟩

/-- C5 amended: with `n` the lower-cased, port-stripped host, when `n` does
not end in `.localhost` the result is empty; when it does, a two-label `n`
is returned as is, and with at least three labels the result is the last
two labels of `n` joined by a dot. -/
theorem registrable_domain_amended (h : Str) :
    (hasSuffix (toLowerStr (hostOnly h)) ".localhost".toList = false →
      registrableLocalhost h = [])
    ∧ (hasSuffix (toLowerStr (hostOnly h)) ".localhost".toList = true →
        ((splitOnChar '.' (toLowerStr (hostOnly h))).length = 2 →
          registrableLocalhost h = toLowerStr (hostOnly h))
        ∧ (3 ≤ (splitOnChar '.' (toLowerStr (hostOnly h))).length →
            ∃ x y,
              (splitOnChar '.' (toLowerStr (hostOnly h))).drop
                  ((splitOnChar '.' (toLowerStr (hostOnly h))).length - 2) = [x, y]
              ∧ registrableLocalhost h = x ++ '.' :: y)) := by
  constructor
  · intro hsuf
    unfold registrableLocalhost
    simp only [hsuf, Bool.not_false, if_true]
  · intro hsuf
    constructor
    · intro hlen
      unfold registrableLocalhost
      simp only [hsuf, Bool.not_true, Bool.false_eq_true, if_false, hlen]
      simp
    · intro hlen
      have hne : ((splitOnChar '.' (toLowerStr (hostOnly h))).length == 2) = false := by
        rw [beq_eq_false_iff_ne]
        omega
      have hnlt : ¬ (splitOnChar '.' (toLowerStr (hostOnly h))).length < 2 := by omega
      have hdlen : ((splitOnChar '.' (toLowerStr (hostOnly h))).drop
          ((splitOnChar '.' (toLowerStr (hostOnly h))).length - 2)).length = 2 := by
        rw [List.length_drop]
        omega
      obtain ⟨x, y, hxy⟩ := List.length_eq_two.mp hdlen
      refine ⟨x, y, hxy, ?_⟩
      unfold registrableLocalhost
      simp only [hsuf, Bool.not_true, Bool.false_eq_true, if_false, hne, if_neg hnlt]
      rw [hxy]
      simp [joinStr]

/-- C5 amended witness: `api.first.localhost` has three labels and yields
`first.localhost`. -/
theorem registrable_domain_amended_witness :
    ∃ x y,
      (splitOnChar '.' (toLowerStr (hostOnly "api.first.localhost".toList))).drop
          ((splitOnChar '.' (toLowerStr (hostOnly "api.first.localhost".toList))).length - 2)
        = [x, y]
      ∧ registrableLocalhost "api.first.localhost".toList = x ++ '.' :: y :=
  ((registrable_domain_amended "api.first.localhost".toList).2 (by decide)).2 (by decide)

/-- C3 counterexample: with lower-case attribute name `domain`, the rewrite
emits `Domain=`, so more than the Domain value's text changes — the claim's
verbatim preservation fails. -/
theorem cookie_rewrite_counterexample :
    rewriteCookieHeader "session=abc; domain=localhost; Path=/".toList
        "first.localhost".toList
      = "session=abc; Domain=first.localhost; Path=/".toList ∧
    "session=abc; Domain=first.localhost; Path=/".toList
      ≠ "session=abc; domain=first.localhost; Path=/".toList := by
  refine ⟨by decide, by decide⟩

/-- C3 amended: the rewrite changes the header only when a `Domain`
attribute is present whose value, lower-cased and stripped of one leading
dot, is exactly `localhost`, and the registrable domain is non-empty —
otherwise the header is returned untouched; when it rewrites, no
`;`-segment is pure whitespace, and the `Domain` attribute is not the
first segment, the output is the whitespace-trimmed segments joined by
`"; "` with the `Domain` segment replaced by `Domain=<registrable>`:
attribute order and every other attribute's trimmed text are preserved,
while the `Domain` attribute's name and the separators are
canonicalised. -/
theorem cookie_rewrite_amended :
    (∀ raw reg, findDomainAttr 0 (splitOnChar ';' raw) = none →
      rewriteCookieHeader raw reg = raw)
    ∧ (∀ raw reg i v, findDomainAttr 0 (splitOnChar ';' raw) = some (i, v) →
        trimPrefixStr (toLowerStr v) ['.'] ≠ "localhost".toList →
        rewriteCookieHeader raw reg = raw)
    ∧ (∀ raw, rewriteCookieHeader raw [] = raw)
    ∧ (∀ raw reg i v, reg ≠ [] →
        findDomainAttr 0 (splitOnChar ';' raw) = some (i, v) →
        trimPrefixStr (toLowerStr v) ['.'] = "localhost".toList →
        rewriteCookieHeader raw reg =
          rebuildCookie 0 i ("Domain=".toList ++ reg) (splitOnChar ';' raw))
    ∧ (∀ (segs : List Str) (k : Nat) (repl : Str),
        (∀ s ∈ segs, trimSpace s ≠ []) → 1 ≤ k →
        rebuildCookie 0 k repl segs =
          joinStr "; ".toList ((segs.map trimSpace).set k repl)) := by
  refine ⟨?_, ?_, ?_, ?_, rebuildCookie_canonical⟩
  · intro raw reg hfind
    by_cases hreg : (reg == []) = true
    · unfold rewriteCookieHeader
      rw [if_pos hreg]
    · have hreg' : (reg == []) = false := by simpa using hreg
      unfold rewriteCookieHeader
      simp only [hreg', Bool.false_eq_true, if_false, hfind]
  · intro raw reg i v hfind hnorm
    by_cases hreg : (reg == []) = true
    · unfold rewriteCookieHeader
      rw [if_pos hreg]
    · have hreg' : (reg == []) = false := by simpa using hreg
      have hbne : (trimPrefixStr (toLowerStr v) ['.'] != "localhost".toList) = true := by
        simpa [bne_iff_ne] using hnorm
      unfold rewriteCookieHeader
      simp only [hreg', Bool.false_eq_true, if_false, hfind, hbne, if_true]
  · intro raw
    unfold rewriteCookieHeader
    simp
  · intro raw reg i v hreg hfind hnorm
    have hreg' : (reg == []) = false := beq_eq_false_iff_ne.mpr hreg
    have hbne : (trimPrefixStr (toLowerStr v) ['.'] != "localhost".toList) = false := by
      simp [hnorm]
    unfold rewriteCookieHeader
    simp only [hreg', Bool.false_eq_true, if_false, hfind, hbne]

/-- C3 witness: a cookie whose `Domain` value is `example.com` is returned
untouched. -/
theorem cookie_rewrite_amended_witness :
    findDomainAttr 0 (splitOnChar ';' "session=abc; Domain=example.com".toList)
      = some (1, "example.com".toList) ∧
    rewriteCookieHeader "session=abc; Domain=example.com".toList "first.localhost".toList
      = "session=abc; Domain=example.com".toList := by
  refine ⟨by decide, ?_⟩
  exact cookie_rewrite_amended.2.1 _ _ 1 "example.com".toList (by decide) (by decide)

/-- C6 counterexample: when the key write fails after the certificate write
succeeded, the run ends with a CA certificate file and no CA key file, so
the files are not persisted together-or-neither. -/
theorem ensure_ca_counterexample :
    bothOrNeither
        (ensureCA ⟨none, none⟩
          ⟨true, true, false, "certpem".toList, "keypem".toList⟩).1 = false ∧
    (ensureCA ⟨none, none⟩ ⟨true, true, false, "certpem".toList, "keypem".toList⟩).1
      = ⟨some "certpem".toList, none⟩ := by
  refine ⟨by decide, by decide⟩

/-- C6 amended: a successful run of `ensureCA` ends with both files
present, and changes nothing when both already existed; a certificate file
without an existing key file is treated as absent, and a fully successful
regeneration writes both fresh files; a failing run never writes the key
file, though it may have written the certificate alone. -/
theorem ensure_ca_amended (fs : CAFiles) (g : CAGen) :
    ((ensureCA fs g).2 = .ok () →
      (ensureCA fs g).1.caCert.isSome = true ∧ (ensureCA fs g).1.caKey.isSome = true)
    ∧ (fs.caCert.isSome = true → fs.caKey.isSome = true → ensureCA fs g = (fs, .ok ()))
    ∧ (fs.caKey = none → g.genOk = true → g.certWriteOk = true → g.keyWriteOk = true →
        ensureCA fs g = (⟨some g.certPem, some g.keyPem⟩, .ok ()))
    ∧ (isErr (ensureCA fs g).2 = true → (ensureCA fs g).1.caKey = fs.caKey) := by
  unfold ensureCA
  by_cases h1 : (fs.caCert.isSome && fs.caKey.isSome) = true
  · obtain ⟨hc, hk⟩ : fs.caCert.isSome = true ∧ fs.caKey.isSome = true := by
      simpa [Bool.and_eq_true] using h1
    rw [if_pos h1]
    refine ⟨fun _ => ⟨hc, hk⟩, fun _ _ => rfl, ?_, fun _ => rfl⟩
    intro hkey
    rw [hkey] at hk
    simp at hk
  · have h1' : (fs.caCert.isSome && fs.caKey.isSome) = false := by simpa using h1
    rw [h1']
    simp only [Bool.false_eq_true, if_false]
    cases hg : g.genOk with
    | false =>
      simp only [Bool.not_false, if_true]
      refine ⟨?_, ?_, ?_, fun _ => trivial⟩
      · intro hok
        simp at hok
      · intro hc hk
        rw [hc, hk] at h1'
        simp at h1'
      · intro _ hgen
        simp at hgen
    | true =>
      simp only [Bool.not_true, Bool.false_eq_true, if_false]
      cases hcw : g.certWriteOk with
      | false =>
        simp only [Bool.not_false, if_true]
        refine ⟨?_, ?_, ?_, fun _ => trivial⟩
        · intro hok
          simp at hok
        · intro hc hk
          rw [hc, hk] at h1'
          simp at h1'
        · intro _ _ hcert
          simp at hcert
      | true =>
        simp only [Bool.not_true, Bool.false_eq_true, if_false]
        cases hkw : g.keyWriteOk with
        | false =>
          simp only [Bool.not_false, if_true]
          refine ⟨?_, ?_, ?_, fun _ => trivial⟩
          · intro hok
            simp at hok
          · intro hc hk
            rw [hc, hk] at h1'
            simp at h1'
          · intro _ _ _ hkeyw
            simp at hkeyw
        | true => exact ⟨fun _ => ⟨rfl, rfl⟩, fun hc hk => by rw [hc, hk] at h1'; simp at h1', fun _ _ _ _ => rfl, fun hErr => by simp [isErr] at hErr⟩

/-- C6 witness: a certificate file with no key file is regenerated as a
fresh pair when every step succeeds. -/
theorem ensure_ca_amended_witness :
    ensureCA ⟨some "oldcert".toList, none⟩
        ⟨true, true, true, "newcert".toList, "newkey".toList⟩
      = (⟨some "newcert".toList, some "newkey".toList⟩, .ok ()) :=
  (ensure_ca_amended ⟨some "oldcert".toList, none⟩
    ⟨true, true, true, "newcert".toList, "newkey".toList⟩).2.2.1 rfl rfl rfl rfl

/-- C9 counterexample: at `now` exactly thirty days before `notAfter`, the
code renews while the claim's strict `now > notAfter - 30 days` condition
is false. -/
theorem leaf_renewal_boundary_counterexample :
    ensureServerCert true (some thirtyDays) 0 = .ok true ∧
    ¬ ((0 : Int) > thirtyDays - thirtyDays) := by
  refine ⟨by decide, by decide⟩

/-- C9 amended: with the CA loadable, the leaf is renewed exactly when the
existing pair fails to load or parse, or `now ≥ notAfter - 30 days`, and
kept otherwise; a leaf expiring in 10 days is renewed, one expiring in 60
days is not. -/
theorem leaf_renewal_amended :
    (∀ (loaded : Option Int) (now : Int),
      (ensureServerCert true loaded now = .ok true ↔
        loaded = none ∨ ∃ t, loaded = some t ∧ t - thirtyDays ≤ now)
      ∧ (ensureServerCert true loaded now = .ok false ↔
        ∃ t, loaded = some t ∧ now < t - thirtyDays))
    ∧ ensureServerCert true (some (10 * oneDay)) 0 = .ok true
    ∧ ensureServerCert true (some (60 * oneDay)) 0 = .ok false := by
  refine ⟨?_, by decide, by decide⟩
  intro loaded now
  unfold ensureServerCert
  cases loaded with
  | none => simp
  | some t =>
    simp only [Bool.not_true, Bool.false_eq_true, if_false]
    by_cases hlt : now < t - thirtyDays
    · rw [if_pos hlt]
      constructor
      · simp only [Except.ok.injEq, Bool.false_eq_true, false_iff]
        rintro (h | ⟨t', ht', hle⟩)
        · simp at h
        · injection ht' with ht'
          omega
      · simp only [Except.ok.injEq, true_iff]
        exact ⟨t, rfl, hlt⟩
    · rw [if_neg hlt]
      constructor
      · simp only [Except.ok.injEq, true_iff]
        exact Or.inr ⟨t, rfl, by omega⟩
      · simp only [Except.ok.injEq, Bool.true_eq_false, false_iff]
        rintro ⟨t', ht', hlt'⟩
        injection ht' with ht'
        omega

theorem routeOrder_iff_spec (a b : RuntimeRoute) : routeOrder a b ↔ routeSpecLE a b := by
  unfold routeOrder routeLess routeSpecLE
  by_cases hlen : utf8Len b.path = utf8Len a.path
  · simp only [hlen, beq_self_eq_true, if_true]
    constructor
    · intro h
      exact Or.inr ⟨trivial, h⟩
    · rintro (h | ⟨heq, h⟩)
      · omega
      · exact h
  · have hb : (utf8Len b.path == utf8Len a.path) = false := by
      rw [beq_eq_false_iff_ne]
      exact hlen
    simp only [hb, Bool.false_eq_true, if_false, decide_eq_false_iff_not, not_lt]
    constructor
    · intro h
      exact Or.inl (by omega)
    · rintro (h | ⟨heq, h2⟩)
      · omega
      · omega

theorem routeOrder_total (a b : RuntimeRoute) : routeOrder a b ∨ routeOrder b a := by
  unfold routeOrder routeLess
  by_cases hlen : utf8Len a.path = utf8Len b.path
  · have h1 : (utf8Len b.path == utf8Len a.path) = true := by simp [hlen]
    have h2 : (utf8Len a.path == utf8Len b.path) = true := by simp [hlen]
    rw [if_pos h1, if_pos h2]
    cases hab : strLt b.path a.path with
    | false => exact Or.inl rfl
    | true => exact Or.inr (strLt_asymm _ _ hab)
  · have h1 : (utf8Len b.path == utf8Len a.path) = false := by
      rw [beq_eq_false_iff_ne]
      omega
    have h2 : (utf8Len a.path == utf8Len b.path) = false := by
      rw [beq_eq_false_iff_ne]
      omega
    rw [h1, h2]
    simp only [Bool.false_eq_true, if_false, decide_eq_false_iff_not, not_lt]
    omega

theorem routeOrder_trans (a b c : RuntimeRoute) (h1 : routeOrder a b)
    (h2 : routeOrder b c) : routeOrder a c := by
  rw [routeOrder_iff_spec] at h1 h2 ⊢
  unfold routeSpecLE at h1 h2 ⊢
  rcases h1 with h1 | ⟨e1, s1⟩
  · rcases h2 with h2 | ⟨e2, s2⟩
    · exact Or.inl (by omega)
    · exact Or.inl (by omega)
  · rcases h2 with h2 | ⟨e2, s2⟩
    · exact Or.inl (by omega)
    · refine Or.inr ⟨by omega, ?_⟩
      cases hca : strLt c.path a.path with
      | false => rfl
      | true =>
        exfalso
        cases hbc : strLt b.path c.path with
        | true =>
          have hba := strLt_trans _ _ _ hbc hca
          rw [hba] at s1
          simp at s1
        | false =>
          have hbceq : b.path = c.path := strLt_conn _ _ hbc s2
          rw [← hbceq] at hca
          rw [hca] at s1
          simp at s1

/-- C8: every successfully constructed router has its route list sorted by
descending path byte-length with ties broken by ascending lexicographic
path, and the example project with paths `/`, `/api`, `/api/v2` is built in
the order `/api/v2`, `/api`, `/`. -/
theorem routes_sorted_longest_first :
    (∀ (p : Project) (dr : DomainRouter), newDomainRouter p = .ok dr →
      dr.routes.Sorted routeSpecLE)
    ∧ (Except.map (fun dr => dr.routes.map RuntimeRoute.path) (newDomainRouter c8Project)
        = .ok ["/api/v2".toList, "/api".toList, "/".toList]) := by
  constructor
  · intro p dr hok
    unfold newDomainRouter at hok
    by_cases hr : (p.routes == []) = true
    · rw [if_pos hr] at hok
      simp at hok
    · have hr' : (p.routes == []) = false := by simpa using hr
      rw [hr'] at hok
      simp only [Bool.false_eq_true, if_false] at hok
      cases hb : buildRoutesAux p.routes with
      | error e =>
        rw [hb] at hok
        simp [Bind.bind, Except.bind] at hok
      | ok pr =>
        obtain ⟨rts, fb⟩ := pr
        rw [hb] at hok
        simp only [Bind.bind, Except.bind, pure, Except.pure, Except.ok.injEq] at hok
        subst hok
        haveI : IsTotal RuntimeRoute routeOrder := ⟨routeOrder_total⟩
        haveI : IsTrans RuntimeRoute routeOrder := ⟨routeOrder_trans⟩
        have hsorted : List.Sorted routeOrder (rts.insertionSort routeOrder) :=
          List.sorted_insertionSort routeOrder rts
        exact hsorted.imp fun hab => (routeOrder_iff_spec _ _).mp hab
  · decide

/-- C8 witness: the example project builds successfully and its route list
is sorted by the specified order. -/
theorem routes_sorted_longest_first_witness :
    ∃ dr, newDomainRouter c8Project = .ok dr ∧ dr.routes.Sorted routeSpecLE := by
  cases hok : newDomainRouter c8Project with
  | error e =>
    have hne : isErr (newDomainRouter c8Project) = false := by decide
    rw [hok] at hne
    simp [isErr] at hne
  | ok dr => exact ⟨dr, rfl, routes_sorted_longest_first.1 c8Project dr hok⟩

end LocalSSL
